import Mathlib

/-!
Shallow embedding of `backupkern` (src/main.rs), a generational backup tool.

Paths are modelled as lists of components (`Path := List String`), matching
Rust `PathBuf` semantics: `Path::starts_with` is component-wise prefix,
`Path::file_name` is the last component, `Ord` on `PathBuf` is the
lexicographic order on components (Mathlib's `LinearOrder (List String)`).

Filesystem state and the other ambient effects (directory listing, the
`walkdir` traversal, `fs::create_dir_all`, `fs::hard_link`, spawning the
external `cp` process, the current local time) are modelled as an explicit
environment `Env`; the functions of the program become pure functions of
that environment.  Mutating operations are recorded as an `Event` trace.
-/

namespace Backupkern

/-- A filesystem path, as its list of components. -/
abbrev Path := List String

/-- The metadata of a regular file, as consulted by `files_equal`:
`fs::Metadata::len`, `permissions` (the mode bits) and `modified`.
`modified = none` models a modification time that cannot be read. -/
structure FileMeta where
  len : Nat
  perms : Nat
  modified : Option Nat
deriving Repr, DecidableEq

/-- What a path resolves to in the filesystem: a regular file (whose
metadata read may fail, and whose byte content is carried so that we can
state that `files_equal` never reads content), a directory, or some other
kind of entry. A path mapped to `none` does not exist. -/
inductive FsNode where
  | file (meta : Option FileMeta) (content : List Nat)
  | dir
  | other
deriving Repr, DecidableEq

/-- The captured output of a spawned process (`std::process::Output`);
only the exit status matters here. -/
structure ProcOutput where
  status : Int
deriving Repr, DecidableEq

/-- The ambient effects of one run:
* `fs` — the metadata view used by `is_dir` / `is_file` / `metadata`;
* `readDir` — `fs::read_dir` on a path: `none` if listing fails, otherwise
  the entries in listing order, each possibly an `Err`;
* `walk` — the entries yielded by `walkdir::WalkDir::new(from).min_depth(1)`,
  each possibly an `Err`;
* `createDirAll` — outcome of `fs::create_dir_all`;
* `hardLink` — outcome of `fs::hard_link src dst`;
* `spawnCp` — outcome of spawning `cp -p src dst` and capturing its output
  (`.error` = the spawn itself failed; `.ok o` = the process ran and exited
  with status `o.status`);
* `now` — the formatted local timestamp `%Y-%m-%d_%H-%M-%S`. -/
structure Env where
  fs : Path → Option FsNode
  readDir : Path → Option (List (Except Unit Path))
  walk : List (Except Unit Path)
  createDirAll : Path → Except Unit Unit
  hardLink : Path → Path → Except Unit Unit
  spawnCp : Path → Path → Except Unit ProcOutput
  now : String

/-- `Path::is_dir` against the environment's filesystem. -/
def isDir (env : Env) (p : Path) : Bool :=
  match env.fs p with
  | some .dir => true
  | _ => false

/-- `Path::is_file` against the environment's filesystem. -/
def isFile (env : Env) (p : Path) : Bool :=
  match env.fs p with
  | some (.file _ _) => true
  | _ => false

/-- `Path::metadata` for the regular files consulted by `files_equal`
(the program only ever reads metadata of paths it has established to be
regular files): `none` models a failing metadata read. -/
def metadata (env : Env) (p : Path) : Option FileMeta :=
  match env.fs p with
  | some (.file m _) => m
  | _ => none

/-- The `exclude:` section of the configuration file. -/
structure ExcludeOptions where
  locations : List Path

/-- The configuration (struct `Config` in main.rs). `from_` embeds the
field `from` and `prefix_` the field `prefix` (both are reserved words
in Lean). -/
structure Config where
  from_ : Path
  «to» : List Path
  prefix_ : String
  exclude : ExcludeOptions

/-- `Config::ignore`: returns true if the file should not be backed up,
i.e. if it starts with one of the excluded locations
(`PathBuf::starts_with` = component-wise prefix). -/
def Config.ignore (c : Config) (f : Path) : Bool :=
  c.exclude.locations.any (fun l => List.isPrefixOf l f)

/-- `files_equal` from main.rs: compares two paths; false unless both are
regular files with the same file name; then compared by length,
permissions and modification time (exact equality, both readable). -/
def files_equal (env : Env) (a b : Path) : Bool :=
  if a.getLast? ≠ b.getLast? then false
  else if ¬ isFile env a ∨ ¬ isFile env b then false
  else
    match metadata env a, metadata env b with
    | some a_meta, some b_meta =>
      if a_meta.len ≠ b_meta.len then false
      else if a_meta.perms ≠ b_meta.perms then false
      else
        match a_meta.modified, b_meta.modified with
        | some a_time, some b_time => a_time == b_time
        | _, _ => false
    | _, _ => false

/-- `cp` from main.rs: spawns `cp -p copy_from copy_to` and captures its
output. Note that `Command::output()?` only fails when the process cannot
be spawned; the captured exit status is discarded. -/
def cp (env : Env) (copy_from copy_to : Path) : Except Unit Unit :=
  match env.spawnCp copy_from copy_to with
  | .error e => .error e
  | .ok _ => .ok ()

/-- The filesystem mutations (and reported, swallowed errors) of a run. -/
inductive Event where
  | createdDirAll (p : Path)
  | hardLinked (src dst : Path)
  | copied (src dst : Path)
  | reportedFileError (src : Path)
  | reportedWalkError
deriving Repr, DecidableEq

/-- `copy_file` from main.rs: if a latest backup exists and the previous
version of the file (at `backup.join(suffix)`) compares equal to the
source, hard-link it to `copy_to`; otherwise run `cp`.  Returns the
mutation events on success, the error otherwise. -/
def copy_file (env : Env) (copy_from copy_to suffix : Path)
    (latest_backup : Option Path) : Except Unit (List Event) :=
  match latest_backup with
  | some backup =>
    let previous_version := backup ++ suffix
    if files_equal env previous_version copy_from then
      match env.hardLink previous_version copy_to with
      | .error e => .error e
      | .ok _ => .ok [.hardLinked previous_version copy_to]
    else
      match cp env copy_from copy_to with
      | .error e => .error e
      | .ok _ => .ok [.copied copy_from copy_to]
  | none =>
    match cp env copy_from copy_to with
    | .error e => .error e
    | .ok _ => .ok [.copied copy_from copy_to]

/-- Strict lexicographic order on character lists: the order underlying
`Ord` on `OsStr`/`String` (byte-wise comparison). -/
def charListLt : List Char → List Char → Bool
  | [], [] => false
  | [], _ :: _ => true
  | _ :: _, [] => false
  | a :: as, b :: bs =>
    if a < b then true else if b < a then false else charListLt as bs

/-- Strict lexicographic order on path components. -/
def strLt (a b : String) : Bool := charListLt a.data b.data

/-- Lexicographic (non-strict) order on paths, component-wise: the order
by which `Vec<PathBuf>::sort` sorts (`Ord` on `PathBuf` compares the
component sequences lexicographically). -/
def pathLe : Path → Path → Bool
  | [], _ => true
  | _ :: _, [] => false
  | a :: as, b :: bs =>
    if strLt a b then true else if strLt b a then false else pathLe as bs

/-- `get_latest_backup` from main.rs: list the backup root (`none` if the
listing fails), keep the `Ok` entries' paths, sort, reverse, and take the
first element if any. -/
def get_latest_backup (env : Env) (backup_root : Path) : Option Path :=
  match env.readDir backup_root with
  | none => none
  | some rd =>
    let all_old_dirs : List Path := rd.filterMap Except.toOption
    let sorted := (all_old_dirs.insertionSort (fun a b => pathLe a b = true)).reverse
    if h : 0 < sorted.length then some (sorted.get ⟨0, h⟩) else none

/-- The prefix-stripping method of `Path`, `?`-propagated in the walk
loop: the remaining components if `base` is a component-wise prefix of
`p`, an error otherwise. -/
def strip_prefix (base p : Path) : Option Path :=
  if List.isPrefixOf base p then some (p.drop base.length) else none

/-- `Path::parent`: drop the last component; `none` for the empty path. -/
def parent (p : Path) : Option Path :=
  match p with
  | [] => none
  | _ :: _ => some p.dropLast

/-- The failures that abort `run_backup` (returned as its `Err`). -/
inductive RunError where
  | noDestination
  | stripPrefixError
  | ioError
deriving Repr, DecidableEq

/-- The destination-selection loop of `run_backup`:
`for t in &config.to { if Path::new(t).is_dir() { to_root = Some(t); } }` —
each existing directory overwrites the previous choice, so the last
directory candidate wins. -/
def selectToRoot (env : Env) (candidates : List Path) : Option Path :=
  candidates.foldl (fun to_root t => if isDir env t then some t else to_root) none

/-- The body of the walk loop of `run_backup`, for one `walkdir` entry:
skip directories and ignored paths; strip the source prefix (a failure
aborts the run via `?`); `create_dir_all` the destination's parent (a
failure aborts the run via `?`); then `copy_file`, whose failure is only
printed.  Returns this entry's events and, if the run must abort, the
error. -/
def walkStep (env : Env) (cfg : Config) (to_root : Path)
    (latest_backup : Option Path) (file_entry : Except Unit Path) :
    List Event × Option RunError :=
  match file_entry with
  | .error _ => ([.reportedWalkError], none)
  | .ok entry =>
    if isDir env entry then ([], none)
    else if cfg.ignore entry then ([], none)
    else
      match strip_prefix cfg.from_ entry with
      | none => ([], some .stripPrefixError)
      | some suffix =>
        let copy_to := to_root ++ suffix
        match parent copy_to with
        | some p =>
          match env.createDirAll p with
          | .error _ => ([], some .ioError)
          | .ok _ =>
            match copy_file env entry copy_to suffix latest_backup with
            | .error _ => ([Event.createdDirAll p, Event.reportedFileError entry], none)
            | .ok evs => (Event.createdDirAll p :: evs, none)
        | none =>
          match copy_file env entry copy_to suffix latest_backup with
          | .error _ => ([Event.reportedFileError entry], none)
          | .ok evs => (evs, none)

/-- The walk loop of `run_backup`: process the entries in order,
accumulating events; stop early when a step aborts. -/
def runWalk (env : Env) (cfg : Config) (to_root : Path)
    (latest_backup : Option Path) : List (Except Unit Path) →
    List Event × Option RunError
  | [] => ([], none)
  | file_entry :: rest =>
    match walkStep env cfg to_root latest_backup file_entry with
    | (evs, some e) => (evs, some e)
    | (evs, none) =>
      let (t, r) := runWalk env cfg to_root latest_backup rest
      (evs ++ t, r)

/-- `run_backup` from main.rs: build the snapshot name from the prefix and
the local time; fail with "No locations to backup to." when `to` is empty
or no candidate is a directory; otherwise write under
`<selected>/<prefix>_<timestamp>`, look the latest backup up under
`config.to[0]`, and walk the source tree.  The result is the event trace
together with the run's error, if any. -/
def run_backup (env : Env) (cfg : Config) : List Event × Option RunError :=
  let pattern := cfg.prefix_ ++ "_" ++ env.now
  if cfg.to.length == 0 then ([], some .noDestination)
  else
    match selectToRoot env cfg.to with
    | none => ([], some .noDestination)
    | some t =>
      let to_root := t ++ [pattern]
      let latest_backup := get_latest_backup env cfg.to.head!
      runWalk env cfg to_root latest_backup env.walk

/-- `env` with every effect trivially successful, an empty filesystem, an
unlistable destination root and an empty walk. -/
def env0 : Env where
  fs := fun _ => none
  readDir := fun _ => none
  walk := []
  createDirAll := fun _ => .ok ()
  hardLink := fun _ _ => .ok ()
  spawnCp := fun _ _ => .ok ⟨0⟩
  now := "2024-01-01_00-00-00"

/-- A filesystem on which every path is a directory. -/
def envAllDirs : Env := { env0 with fs := fun _ => some .dir }

/-- `cp` runs but exits with status 1 (e.g. the copy itself failed). -/
def envStatus1 : Env := { env0 with spawnCp := fun _ _ => .ok ⟨1⟩ }

/-- Spawning `cp` fails outright. -/
def envSpawnErr : Env := { env0 with spawnCp := fun _ _ => .error () }

/-- Every two-component path is a regular file; everything else absent. -/
def envOneFile : Env :=
  { env0 with fs := fun p => if p.length = 2 then some (.file none []) else none }

/-- As `envOneFile`, but spawning `cp` fails. -/
def envFileCpFail : Env := { envOneFile with spawnCp := fun _ _ => .error () }

/-- As `envOneFile`, but `create_dir_all` fails. -/
def envMkdirFail : Env := { envOneFile with createDirAll := fun _ => .error () }

/-- Listing any directory yields one unreadable entry and one child `r/b`. -/
def envListing : Env :=
  { env0 with readDir := fun _ => some [.error (), .ok ["r", "b"]] }

/-- A minimal configuration: back `src` up to `dst`, no exclusions. -/
def cfg0 : Config where
  from_ := ["src"]
  «to» := [["dst"]]
  prefix_ := "backup"
  exclude := ⟨[]⟩

/-- As `cfg0` with two destination candidates. -/
def cfgTwo : Config := { cfg0 with «to» := [["d1"], ["d2"]] }

/-- As `cfg0`, excluding the subtree `src/secret`. -/
def cfgExcl : Config := { cfg0 with exclude := ⟨[["src", "secret"]]⟩ }

/-- The same environment with every file's byte content erased; comparing
a run against `eraseContent env` expresses that a function never reads
file content. -/
def eraseContent (env : Env) : Env :=
  { env with fs := fun p =>
      match env.fs p with
      | some (.file m _) => some (.file m [])
      | n => n }

/-! ## Order lemmas for the path comparator -/

theorem charListLt_eq_of_not_lt :
    ∀ as bs : List Char, charListLt as bs = false → charListLt bs as = false →
      as = bs := by
  intro as
  induction as with
  | nil =>
    intro bs h1 _
    cases bs with
    | nil => rfl
    | cons b bs => simp [charListLt] at h1
  | cons a as ih =>
    intro bs h1 h2
    cases bs with
    | nil => simp [charListLt] at h2
    | cons b bs =>
      by_cases hab : a < b
      · simp [charListLt, hab] at h1
      · by_cases hba : b < a
        · simp [charListLt, hba] at h2
        · have hab' : a = b := le_antisymm (le_of_not_lt hba) (le_of_not_lt hab)
          subst hab'
          simp only [charListLt, if_neg hab] at h1 h2
          rw [ih bs h1 h2]

theorem charListLt_trans :
    ∀ as bs cs : List Char, charListLt as bs = true → charListLt bs cs = true →
      charListLt as cs = true := by
  intro as
  induction as with
  | nil =>
    intro bs cs h1 h2
    cases bs with
    | nil => simp [charListLt] at h1
    | cons b bs =>
      cases cs with
      | nil => simp [charListLt] at h2
      | cons c cs => simp [charListLt]
  | cons a as ih =>
    intro bs cs h1 h2
    cases bs with
    | nil => simp [charListLt] at h1
    | cons b bs =>
      cases cs with
      | nil => simp [charListLt] at h2
      | cons c cs =>
        simp only [charListLt] at h1 h2 ⊢
        by_cases hab : a < b
        · by_cases hbc : b < c
          · simp [lt_trans hab hbc]
          · by_cases hcb : c < b
            · simp [hbc, hcb] at h2
            · have : b = c := le_antisymm (le_of_not_lt hcb) (le_of_not_lt hbc)
              subst this
              simp [hab]
        · by_cases hba : b < a
          · simp [hab, hba] at h1
          · have : a = b := le_antisymm (le_of_not_lt hba) (le_of_not_lt hab)
            subst this
            simp only [if_neg hab] at h1
            by_cases hbc : a < c
            · simp [hbc]
            · by_cases hcb : c < a
              · simp [hbc, hcb] at h2
              · have : a = c := le_antisymm (le_of_not_lt hcb) (le_of_not_lt hbc)
                subst this
                simp only [if_neg hbc] at h2 ⊢
                exact ih bs cs h1 h2

theorem strLt_eq_of_not_lt {a b : String} (h1 : strLt a b = false)
    (h2 : strLt b a = false) : a = b :=
  String.ext (charListLt_eq_of_not_lt _ _ h1 h2)

theorem strLt_trans {a b c : String} (h1 : strLt a b = true)
    (h2 : strLt b c = true) : strLt a c = true :=
  charListLt_trans _ _ _ h1 h2

theorem pathLe_refl : ∀ p : Path, pathLe p p = true := by
  intro p
  induction p with
  | nil => rfl
  | cons a as ih =>
    simp only [pathLe]
    by_cases h : strLt a a = true
    · simp [h]
    · simp only [Bool.not_eq_true] at h
      simp [h, ih]

theorem pathLe_total : ∀ a b : Path, pathLe a b = true ∨ pathLe b a = true := by
  intro a
  induction a with
  | nil => intro b; left; rfl
  | cons x xs ih =>
    intro b
    cases b with
    | nil => right; rfl
    | cons y ys =>
      simp only [pathLe]
      by_cases hxy : strLt x y = true
      · left; simp [hxy]
      · by_cases hyx : strLt y x = true
        · right; simp [hyx]
        · simp only [Bool.not_eq_true] at hxy hyx
          simp only [hxy, hyx]
          simpa using ih ys

theorem pathLe_trans :
    ∀ a b c : Path, pathLe a b = true → pathLe b c = true →
      pathLe a c = true := by
  intro a
  induction a with
  | nil => intro b c _ _; rfl
  | cons x xs ih =>
    intro b c h1 h2
    cases b with
    | nil => simp [pathLe] at h1
    | cons y ys =>
      cases c with
      | nil => simp [pathLe] at h2
      | cons z zs =>
        simp only [pathLe] at h1 h2 ⊢
        by_cases hxy : strLt x y = true
        · by_cases hyz : strLt y z = true
          · simp [strLt_trans hxy hyz]
          · by_cases hzy : strLt z y = true
            · simp [hyz, hzy] at h2
            · simp only [Bool.not_eq_true] at hyz hzy
              have : y = z := strLt_eq_of_not_lt hyz hzy
              subst this
              simp [hxy]
        · by_cases hyx : strLt y x = true
          · simp [hxy, hyx] at h1
          · simp only [Bool.not_eq_true] at hxy hyx
            have : x = y := strLt_eq_of_not_lt hxy hyx
            subst this
            simp only [hxy, Bool.false_eq_true, if_false, ite_self] at h1 ⊢
            by_cases hxz : strLt x z = true
            · simp [hxz]
            · by_cases hzx : strLt z x = true
              · simp only [Bool.not_eq_true] at hxz
                simp [hxz, hzx] at h2
              · simp only [Bool.not_eq_true] at hxz hzx
                have : x = z := strLt_eq_of_not_lt hxz hzx
                subst this
                simp only [hxz] at h2 ⊢
                simp only [Bool.false_eq_true, if_false, ite_self] at h1 h2 ⊢
                exact ih ys zs h1 h2

instance : IsTotal Path (fun a b => pathLe a b = true) := ⟨pathLe_total⟩

instance : IsTrans Path (fun a b => pathLe a b = true) :=
  ⟨fun a b c h1 h2 => pathLe_trans a b c h1 h2⟩

theorem mem_of_getLast?_eq {α : Type} {l : List α} {m : α}
    (h : l.getLast? = some m) : m ∈ l := by
  have hne : l ≠ [] := by
    intro h0
    subst h0
    simp at h
  rw [List.getLast?_eq_getLast_of_ne_nil hne] at h
  cases h
  exact List.getLast_mem hne

theorem sorted_getLast?_max {α : Type} {r : α → α → Prop}
    (hrefl : ∀ a, r a a) :
    ∀ l : List α, l.Sorted r → ∀ m, l.getLast? = some m → ∀ x ∈ l, r x m := by
  intro l
  induction l with
  | nil => intro _ m hm; simp at hm
  | cons a l ih =>
    intro hs m hm x hx
    cases l with
    | nil =>
      simp at hm hx
      subst hm
      subst hx
      exact hrefl _
    | cons b l' =>
      have hm' : (b :: l').getLast? = some m := by
        rwa [List.getLast?_cons_cons] at hm
      rcases List.mem_cons.mp hx with rfl | hx'
      · exact List.rel_of_sorted_cons hs _ (mem_of_getLast?_eq hm')
      · exact ih hs.of_cons m hm' x hx'

theorem head?_get_zero {α : Type} (l : List α) (h : 0 < l.length) :
    l.head? = some (l.get ⟨0, h⟩) := by
  cases l with
  | nil => simp at h
  | cons x xs => rfl

/-! ## The file comparator (C2) -/

theorem eraseContent_isFile (env : Env) (p : Path) :
    isFile (eraseContent env) p = isFile env p := by
  unfold isFile eraseContent
  rcases h : env.fs p with _ | n
  · simp [h]
  · cases n <;> simp [h]

theorem eraseContent_metadata (env : Env) (p : Path) :
    metadata (eraseContent env) p = metadata env p := by
  unfold metadata eraseContent
  rcases h : env.fs p with _ | n
  · simp [h]
  · cases n <;> simp [h]

/-- C2: `files_equal a b` is true iff `a` and `b` have the same file name
(last component), both are regular files with readable metadata, their
sizes and permission bits agree, and both modification times are readable
and exactly equal; and it never reads file content (erasing every file's
content leaves the result unchanged). -/
theorem files_equal_spec (env : Env) (a b : Path) :
    (files_equal env a b = true ↔
      a.getLast? = b.getLast? ∧
        ∃ am ac bm bc, env.fs a = some (.file (some am) ac) ∧
          env.fs b = some (.file (some bm) bc) ∧
          am.len = bm.len ∧ am.perms = bm.perms ∧
          ∃ t, am.modified = some t ∧ bm.modified = some t) ∧
    files_equal (eraseContent env) a b = files_equal env a b := by
  constructor
  · constructor
    · intro h
      by_cases hname : a.getLast? = b.getLast?
      · refine ⟨hname, ?_⟩
        rcases hfa : env.fs a with _ | na
        · simp [files_equal, isFile, hfa] at h
        · rcases hfb : env.fs b with _ | nb
          · simp [files_equal, isFile, hfb] at h
          · cases na with
            | file ma ca =>
              cases nb with
              | file mb cb =>
                cases ma with
                | none => simp [files_equal, isFile, metadata, hfa, hfb, hname] at h
                | some am =>
                  cases mb with
                  | none => simp [files_equal, isFile, metadata, hfa, hfb, hname] at h
                  | some bm =>
                    simp only [files_equal, isFile, metadata, hfa, hfb, hname,
                      ne_eq, not_true_eq_false, if_false, not_false_eq_true,
                      or_self, ite_false] at h
                    by_cases hlen : am.len = bm.len
                    · by_cases hperm : am.perms = bm.perms
                      · rcases hta : am.modified with _ | ta
                        · simp [hlen, hperm, hta] at h
                        · rcases htb : bm.modified with _ | tb
                          · simp [hlen, hperm, hta, htb] at h
                          · simp only [hlen, hperm, hta, htb, ne_eq,
                              not_true_eq_false, if_false, beq_iff_eq] at h
                            exact ⟨am, ca, bm, cb, rfl, rfl, hlen, hperm,
                              ta, hta, by rw [htb, h]⟩
                      · simp [hlen, hperm] at h
                    · simp [hlen] at h
              | dir => simp [files_equal, isFile, hfa, hfb] at h
              | other => simp [files_equal, isFile, hfa, hfb] at h
            | dir => simp [files_equal, isFile, hfa] at h
            | other => simp [files_equal, isFile, hfa] at h
      · simp [files_equal, hname] at h
    · rintro ⟨hname, am, ac, bm, bc, hfa, hfb, hlen, hperm, t, hta, htb⟩
      simp [files_equal, isFile, metadata, hfa, hfb, hname, hlen, hperm, hta, htb]
  · simp only [files_equal, eraseContent_isFile, eraseContent_metadata]

/-! ## The materializer (C1) and the copy primitive (C8) -/

/-- C1: when `copy_file` succeeds, the destination was produced as a hard
link to `prior_generation/suffix` exactly when a prior generation exists
and the comparator declares that candidate equal to the source; otherwise
(no prior generation, or comparator says changed) it was produced by a
physical copy of the source file. -/
theorem copy_file_materialization (env : Env) (copy_from copy_to suffix : Path)
    (latest_backup : Option Path) (evs : List Event)
    (h : copy_file env copy_from copy_to suffix latest_backup = .ok evs) :
    (∃ backup, latest_backup = some backup ∧
        files_equal env (backup ++ suffix) copy_from = true ∧
        evs = [.hardLinked (backup ++ suffix) copy_to]) ∨
    ((latest_backup = none ∨
        ∃ backup, latest_backup = some backup ∧
          files_equal env (backup ++ suffix) copy_from = false) ∧
      evs = [.copied copy_from copy_to]) := by
  cases latest_backup with
  | none =>
    right
    refine ⟨Or.inl rfl, ?_⟩
    unfold copy_file cp at h
    rcases hsp : env.spawnCp copy_from copy_to with e | o <;> simp [hsp] at h
    exact h.symm
  | some backup =>
    by_cases heq : files_equal env (backup ++ suffix) copy_from = true
    · left
      unfold copy_file at h
      simp only [heq, if_true] at h
      rcases hl : env.hardLink (backup ++ suffix) copy_to with e | u <;>
        simp [hl] at h
      exact ⟨backup, rfl, heq, h.symm⟩
    · right
      rw [Bool.not_eq_true] at heq
      refine ⟨Or.inr ⟨backup, rfl, heq⟩, ?_⟩
      unfold copy_file cp at h
      simp only [heq, Bool.false_eq_true, if_false] at h
      rcases hsp : env.spawnCp copy_from copy_to with e | o <;> simp [hsp] at h
      exact h.symm

/-- Witness for C1 at a concrete input: with no prior generation,
`copy_file` succeeds by physical copy. -/
theorem copy_file_materialization_witness :
    (∃ backup, (none : Option Path) = some backup ∧
        files_equal env0 (backup ++ ["a"]) ["a"] = true ∧
        [Event.copied ["a"] ["b"]] = [.hardLinked (backup ++ ["a"]) ["b"]]) ∨
    (((none : Option Path) = none ∨
        ∃ backup, (none : Option Path) = some backup ∧
          files_equal env0 (backup ++ ["a"]) ["a"] = false) ∧
      [Event.copied ["a"] ["b"]] = [Event.copied ["a"] ["b"]]) :=
  copy_file_materialization env0 ["a"] ["b"] ["a"] none [.copied ["a"] ["b"]] rfl

/-- C8 counterexample: the spawned `cp` process exits with status 1, yet
`cp` (hence `copy_file`) reports success — a non-zero exit status of the
copy process is NOT surfaced as a per-file copy error. -/
theorem cp_nonzero_status_not_surfaced :
    envStatus1.spawnCp ["a"] ["b"] = .ok ⟨1⟩ ∧
    cp envStatus1 ["a"] ["b"] = .ok () ∧
    copy_file envStatus1 ["a"] ["b"] ["a"] none = .ok [.copied ["a"] ["b"]] :=
  ⟨rfl, rfl, rfl⟩

/-- C8 (amended): only a failure to spawn the external copy process
surfaces as the per-file copy error; when the process spawns, the file is
reported as copied regardless of the process's exit status. -/
theorem cp_failure_surfaces (env : Env) (copy_from copy_to suffix : Path)
    (latest_backup : Option Path)
    (hcopy : latest_backup = none ∨ ∃ backup, latest_backup = some backup ∧
      files_equal env (backup ++ suffix) copy_from = false) :
    (∀ e, env.spawnCp copy_from copy_to = .error e →
      copy_file env copy_from copy_to suffix latest_backup = .error e) ∧
    ∀ o, env.spawnCp copy_from copy_to = .ok o →
      copy_file env copy_from copy_to suffix latest_backup =
        .ok [.copied copy_from copy_to] := by
  rcases hcopy with rfl | ⟨backup, rfl, hne⟩
  · constructor <;> intro x hx <;> simp [copy_file, cp, hx]
  · constructor <;> intro x hx <;> simp [copy_file, cp, hx, hne]

/-- Witness for C8 (amended) at concrete inputs: a spawn failure becomes
the per-file error; a successful spawn (status 0) counts as copied. -/
theorem cp_failure_surfaces_witness :
    copy_file envSpawnErr ["a"] ["b"] ["a"] none = .error () ∧
    copy_file env0 ["a"] ["b"] ["a"] none = .ok [.copied ["a"] ["b"]] :=
  ⟨(cp_failure_surfaces envSpawnErr ["a"] ["b"] ["a"] none (Or.inl rfl)).1 () rfl,
   (cp_failure_surfaces env0 ["a"] ["b"] ["a"] none (Or.inl rfl)).2 ⟨0⟩ rfl⟩

/-! ## The generation locator (C4) -/

/-- C4: `get_latest_backup` returns `none` when the root cannot be
listed; otherwise, among the listable (Ok) entries — with no type
filtering — it returns `none` exactly when there are none, and any
returned path is one of them and lexicographically greatest. -/
theorem get_latest_backup_spec (env : Env) (backup_root : Path) :
    (env.readDir backup_root = none →
      get_latest_backup env backup_root = none) ∧
    ∀ rd, env.readDir backup_root = some rd →
      ((rd.filterMap Except.toOption = [] ↔
          get_latest_backup env backup_root = none) ∧
        ∀ m, get_latest_backup env backup_root = some m →
          m ∈ rd.filterMap Except.toOption ∧
            ∀ x ∈ rd.filterMap Except.toOption, pathLe x m = true) := by
  constructor
  · intro h
    unfold get_latest_backup
    rw [h]
  · intro rd hrd
    have hunf : get_latest_backup env backup_root =
        (if h : 0 < ((rd.filterMap Except.toOption).insertionSort
            (fun a b => pathLe a b = true)).reverse.length then
          some (((rd.filterMap Except.toOption).insertionSort
            (fun a b => pathLe a b = true)).reverse.get ⟨0, h⟩)
        else none) := by
      unfold get_latest_backup
      rw [hrd]
    constructor
    · constructor
      · intro hnil
        rw [hunf]
        have hlen : ((rd.filterMap Except.toOption).insertionSort
            (fun a b => pathLe a b = true)).reverse.length = 0 := by
          simp [hnil]
        simp [hlen]
      · intro hres
        by_contra hne
        have hlen : 0 < ((rd.filterMap Except.toOption).insertionSort
            (fun a b => pathLe a b = true)).reverse.length := by
          simp only [List.length_reverse, List.length_insertionSort]
          exact List.length_pos.mpr hne
        rw [hunf, dif_pos hlen] at hres
        exact Option.some_ne_none _ hres
    · intro m hm
      rw [hunf] at hm
      by_cases hlen : 0 < ((rd.filterMap Except.toOption).insertionSort
          (fun a b => pathLe a b = true)).reverse.length
      · rw [dif_pos hlen] at hm
        have hget := Option.some.inj hm
        have hhead : ((rd.filterMap Except.toOption).insertionSort
            (fun a b => pathLe a b = true)).reverse.head? = some m := by
          rw [head?_get_zero _ hlen, hget]
        rw [List.head?_reverse] at hhead
        constructor
        · exact (List.mem_insertionSort _).mp (mem_of_getLast?_eq hhead)
        · intro x hx
          exact sorted_getLast?_max (fun a => pathLe_refl a) _
            (List.sorted_insertionSort _ _) m hhead x
            ((List.mem_insertionSort _).mpr hx)
      · rw [dif_neg hlen] at hm
        exact absurd hm (Option.some_ne_none _).symm

/-- Witness for C4: a root listing with one unreadable entry and one
child yields that child, which is trivially maximal. -/
theorem get_latest_backup_spec_witness :
    get_latest_backup envListing ["r"] = some ["r", "b"] ∧
    ["r", "b"] ∈ ([.error (), .ok ["r", "b"]] :
        List (Except Unit Path)).filterMap Except.toOption ∧
    ∀ x ∈ ([.error (), .ok ["r", "b"]] :
        List (Except Unit Path)).filterMap Except.toOption,
      pathLe x ["r", "b"] = true :=
  ⟨rfl, ((get_latest_backup_spec envListing ["r"]).2 _ rfl).2 _ rfl⟩

/-! ## Destination selection (C3, C9) -/

theorem foldl_select (env : Env) :
    ∀ (l : List Path) (init : Option Path),
      l.foldl (fun to_root t => if isDir env t then some t else to_root) init =
        ((l.filter (fun t => isDir env t)).getLast?).or init := by
  intro l
  induction l with
  | nil => intro init; rfl
  | cons c cs ih =>
    intro init
    simp only [List.foldl_cons, List.filter_cons]
    by_cases hc : isDir env c = true
    · simp only [hc, if_true]
      rw [ih]
      cases hcs : cs.filter (fun t => isDir env t) with
      | nil => simp [Option.or]
      | cons d ds =>
        simp only [List.getLast?_cons_cons]
        rw [List.getLast?_eq_getLast_of_ne_nil (l := d :: ds) (by simp)]
        rfl
    · simp only [Bool.not_eq_true] at hc
      simp only [hc, Bool.false_eq_true, if_false]
      rw [ih]

/-- Shared helper: with no directory among the candidates, `run_backup`
fails with the no-destination error and an empty trace. -/
theorem run_backup_noDest_of_filter_nil (env : Env) (cfg : Config)
    (h : cfg.to.filter (fun t => isDir env t) = []) :
    run_backup env cfg = ([], some .noDestination) := by
  unfold run_backup
  by_cases hlen : cfg.to.length == 0
  · simp [hlen]
  · simp only [hlen, Bool.false_eq_true, if_false]
    have hsel : selectToRoot env cfg.to = none := by
      unfold selectToRoot
      rw [foldl_select, h]
      rfl
    rw [hsel]

/-- C3: destination selection scans the candidates in configured order
and the last candidate that currently is a directory wins (the fold
equals the last directory in the list); if no candidate is a directory,
the run fails with the no-usable-destination error. -/
theorem selectToRoot_spec (env : Env) (cfg : Config) :
    selectToRoot env cfg.to =
      (cfg.to.filter (fun t => isDir env t)).getLast? ∧
    (cfg.to.filter (fun t => isDir env t) = [] →
      run_backup env cfg = ([], some .noDestination)) := by
  constructor
  · unfold selectToRoot
    rw [foldl_select]
    cases (cfg.to.filter (fun t => isDir env t)).getLast? <;> rfl
  · exact run_backup_noDest_of_filter_nil env cfg

/-- Witness for C3: with a single non-directory candidate, selection
yields nothing and the run fails. -/
theorem selectToRoot_spec_witness :
    selectToRoot env0 cfg0.to = none ∧
    run_backup env0 cfg0 = ([], some .noDestination) :=
  ⟨by rw [(selectToRoot_spec env0 cfg0).1]; rfl,
   (selectToRoot_spec env0 cfg0).2 rfl⟩

/-- C9: if no configured destination candidate currently exists as a
directory, the run fails with the no-destination error before any
filesystem mutation: the event trace is empty. -/
theorem run_backup_no_destination (env : Env) (cfg : Config)
    (h : ∀ t ∈ cfg.to, isDir env t = false) :
    run_backup env cfg = ([], some .noDestination) :=
  run_backup_noDest_of_filter_nil env cfg
    (by rw [List.filter_eq_nil_iff]; intro t ht; simp [h t ht])

/-- Witness for C9 at a concrete input: two candidates, neither a
directory. -/
theorem run_backup_no_destination_witness :
    run_backup env0 cfgTwo = ([], some .noDestination) :=
  run_backup_no_destination env0 cfgTwo (by intro t ht; fin_cases ht <;> rfl)

/-! ## Resolve phase: lookup root vs write root (C5) -/

/-- C5: the prior-generation lookup always targets the first configured
destination candidate `config.to[0]`, while the write root is the
independently selected candidate; concretely, with two existing
directory candidates the selector picks the second while the lookup
targets the first, so the two roots differ. -/
theorem run_backup_roots (env : Env) (cfg : Config) (t0 : Path)
    (rest : List Path) (w : Path) (h1 : cfg.to = t0 :: rest)
    (h2 : selectToRoot env cfg.to = some w) :
    run_backup env cfg =
      runWalk env cfg (w ++ [cfg.prefix_ ++ "_" ++ env.now])
        (get_latest_backup env t0) env.walk ∧
    selectToRoot envAllDirs [["d1"], ["d2"]] = some ["d2"] ∧
    ([["d1"], ["d2"]] : List Path).head? = some ["d1"] := by
  refine ⟨?_, rfl, rfl⟩
  have h2' : selectToRoot env (t0 :: rest) = some w := by rwa [h1] at h2
  unfold run_backup
  rw [h1, h2']
  rfl

/-- Witness for C5: both candidates of `cfgTwo` exist as directories, the
write root resolves to `d2` and the lookup root to `d1`. -/
theorem run_backup_roots_witness :
    run_backup envAllDirs cfgTwo =
      runWalk envAllDirs cfgTwo
        (["d2"] ++ [cfgTwo.prefix_ ++ "_" ++ envAllDirs.now])
        (get_latest_backup envAllDirs ["d1"]) envAllDirs.walk ∧
    selectToRoot envAllDirs [["d1"], ["d2"]] = some ["d2"] ∧
    ([["d1"], ["d2"]] : List Path).head? = some ["d1"] :=
  run_backup_roots envAllDirs cfgTwo ["d1"] [["d2"]] ["d2"] rfl rfl

/-! ## Composition lemmas for the walk loop -/

theorem runWalk_cons_abort (env : Env) (cfg : Config) (to_root : Path)
    (latest_backup : Option Path) (e : Except Unit Path)
    (l : List (Except Unit Path)) (evs : List Event) (err : RunError)
    (h : walkStep env cfg to_root latest_backup e = (evs, some err)) :
    runWalk env cfg to_root latest_backup (e :: l) = (evs, some err) := by
  simp only [runWalk, h]

theorem runWalk_cons_ok (env : Env) (cfg : Config) (to_root : Path)
    (latest_backup : Option Path) (e : Except Unit Path)
    (l : List (Except Unit Path)) (evs : List Event)
    (h : walkStep env cfg to_root latest_backup e = (evs, none)) :
    runWalk env cfg to_root latest_backup (e :: l) =
      (evs ++ (runWalk env cfg to_root latest_backup l).1,
        (runWalk env cfg to_root latest_backup l).2) := by
  simp only [runWalk, h]

/-! ## Exclusion (C6) -/

/-- C6: a path is excluded exactly when it extends (is equal to or nested
under) some configured exclusion prefix, and an excluded entry is skipped
before any filesystem work: the walk containing it behaves exactly as the
walk without it. -/
theorem exclusion_spec (env : Env) (cfg : Config) (to_root : Path)
    (latest_backup : Option Path) (pre post : List (Except Unit Path))
    (p : Path) (hp : cfg.ignore p = true) :
    (∀ f : Path, cfg.ignore f = true ↔
      ∃ l ∈ cfg.exclude.locations, List.isPrefixOf l f = true) ∧
    runWalk env cfg to_root latest_backup (pre ++ .ok p :: post) =
      runWalk env cfg to_root latest_backup (pre ++ post) := by
  constructor
  · intro f
    simp [Config.ignore, List.any_eq_true]
  · have hstep : walkStep env cfg to_root latest_backup (.ok p) = ([], none) := by
      by_cases hdir : isDir env p = true <;> simp [walkStep, hdir, hp]
    induction pre with
    | nil =>
      simp only [List.nil_append]
      rw [runWalk_cons_ok _ _ _ _ _ _ _ hstep]
      simp
    | cons e pre ih =>
      simp only [List.cons_append]
      rcases hws : walkStep env cfg to_root latest_backup e with ⟨evs, r⟩
      cases r with
      | none =>
        rw [runWalk_cons_ok _ _ _ _ _ _ _ hws,
          runWalk_cons_ok _ _ _ _ _ _ _ hws, ih]
      | some err =>
        rw [runWalk_cons_abort _ _ _ _ _ _ _ _ hws,
          runWalk_cons_abort _ _ _ _ _ _ _ _ hws]

/-- Witness for C6: a file under the excluded `src/secret` subtree
contributes nothing to the walk. -/
theorem exclusion_spec_witness :
    cfgExcl.ignore ["src", "secret", "f"] = true ∧
    runWalk env0 cfgExcl ["dst"] none ([] ++ .ok ["src", "secret", "f"] :: []) =
      runWalk env0 cfgExcl ["dst"] none ([] ++ []) :=
  ⟨rfl,
   (exclusion_spec env0 cfgExcl ["dst"] none [] [] ["src", "secret", "f"] rfl).2⟩

/-! ## Per-file copy/link failure is isolated (C7) -/

/-- C7: a failure while linking or copying one file does not abort the
run: the error is reported for that file, the step does not escalate, and
the remaining entries are processed exactly as they otherwise would be. -/
theorem copy_failure_isolated (env : Env) (cfg : Config) (to_root : Path)
    (latest_backup : Option Path) (p suffix : Path)
    (rest : List (Except Unit Path))
    (hdir : isDir env p = false) (hign : cfg.ignore p = false)
    (hstrip : strip_prefix cfg.from_ p = some suffix)
    (hmkdir : ∀ q, parent (to_root ++ suffix) = some q →
      env.createDirAll q = .ok ())
    (hfail : copy_file env p (to_root ++ suffix) suffix latest_backup =
      .error ()) :
    ∃ evs, walkStep env cfg to_root latest_backup (.ok p) = (evs, none) ∧
      Event.reportedFileError p ∈ evs ∧
      runWalk env cfg to_root latest_backup (.ok p :: rest) =
        (evs ++ (runWalk env cfg to_root latest_backup rest).1,
          (runWalk env cfg to_root latest_backup rest).2) := by
  have hstep : ∃ evs,
      walkStep env cfg to_root latest_backup (.ok p) = (evs, none) ∧
      Event.reportedFileError p ∈ evs := by
    cases hq : parent (to_root ++ suffix) with
    | none =>
      refine ⟨[.reportedFileError p], ?_, by simp⟩
      simp [walkStep, hdir, hign, hstrip, hq, hfail]
    | some q =>
      refine ⟨[.createdDirAll q, .reportedFileError p], ?_, by simp⟩
      simp [walkStep, hdir, hign, hstrip, hq, hmkdir q hq, hfail]
  rcases hstep with ⟨evs, hws, hmem⟩
  exact ⟨evs, hws, hmem, runWalk_cons_ok _ _ _ _ _ _ _ hws⟩

/-- Witness for C7: spawning `cp` fails for `src/a`, the error is
reported, and the (empty) remainder of the walk is unaffected. -/
theorem copy_failure_isolated_witness :
    ∃ evs,
      walkStep envFileCpFail cfg0 ["dst", "snap"] none (.ok ["src", "a"]) =
        (evs, none) ∧
      Event.reportedFileError ["src", "a"] ∈ evs ∧
      runWalk envFileCpFail cfg0 ["dst", "snap"] none
          (.ok ["src", "a"] :: []) =
        (evs ++ (runWalk envFileCpFail cfg0 ["dst", "snap"] none []).1,
          (runWalk envFileCpFail cfg0 ["dst", "snap"] none []).2) :=
  copy_failure_isolated envFileCpFail cfg0 ["dst", "snap"] none
    ["src", "a"] ["a"] [] rfl rfl rfl
    (fun q hq => by cases hq; rfl) rfl

/-! ## A mkdir failure aborts the run (C10) -/

/-- C10: if creating the destination parent directory tree fails for one
traversed file, the whole run aborts with an error at that point: the
trace stops at the entries already processed and the remaining entries
are not processed (the outcome is independent of them). -/
theorem mkdir_failure_aborts (env : Env) (cfg : Config) (to_root : Path)
    (latest_backup : Option Path) (p suffix q : Path)
    (post : List (Except Unit Path))
    (hdir : isDir env p = false) (hign : cfg.ignore p = false)
    (hstrip : strip_prefix cfg.from_ p = some suffix)
    (hq : parent (to_root ++ suffix) = some q)
    (hmk : env.createDirAll q = .error ()) :
    ∀ (pre : List (Except Unit Path)) (t : List Event),
      runWalk env cfg to_root latest_backup pre = (t, none) →
      runWalk env cfg to_root latest_backup (pre ++ .ok p :: post) =
        (t, some .ioError) := by
  have hstep : walkStep env cfg to_root latest_backup (.ok p) =
      ([], some .ioError) := by
    simp [walkStep, hdir, hign, hstrip, hq, hmk]
  intro pre
  induction pre with
  | nil =>
    intro t hpre
    have ht : ([] : List Event) = t := by
      simp only [runWalk] at hpre
      injection hpre
    subst ht
    simp only [List.nil_append]
    exact runWalk_cons_abort _ _ _ _ _ _ _ _ hstep
  | cons e pre ih =>
    intro t hpre
    rcases hws : walkStep env cfg to_root latest_backup e with ⟨evs, r⟩
    cases r with
    | some err =>
      rw [runWalk_cons_abort _ _ _ _ _ _ _ _ hws] at hpre
      injection hpre with h1 h2
      exact absurd h2 (by simp)
    | none =>
      rw [runWalk_cons_ok _ _ _ _ _ _ _ hws] at hpre
      rcases hrec : runWalk env cfg to_root latest_backup pre with ⟨t', r'⟩
      rw [hrec] at hpre
      injection hpre with h1 h2
      subst h1
      subst h2
      rw [List.cons_append]
      rw [runWalk_cons_ok _ _ _ _ _ _ _ hws]
      rw [ih t' hrec]

/-- Witness for C10: `create_dir_all` fails for the first (and only)
entry; the run aborts with the I/O error and an empty trace. -/
theorem mkdir_failure_aborts_witness :
    runWalk envMkdirFail cfg0 ["dst", "snap"] none
        ([] ++ .ok ["src", "a"] :: []) = ([], some .ioError) :=
  mkdir_failure_aborts envMkdirFail cfg0 ["dst", "snap"] none
    ["src", "a"] ["a"] ["dst", "snap"] [] rfl rfl rfl rfl rfl [] [] rfl

end Backupkern
